import Mathlib

/-!
Verification of the Knugget central backend (video-summary API).

The development shallowly embeds the TypeScript sources as Lean functions
over `List Char` (strings) and an explicit database state.  The repository
contains two concatenated variants of `routes/summary.ts` and of
`services/generateSummary.ts`; both variants are modelled where claims
distinguish them (`generateV1`/`generateV2`, `saveV1`/`saveV2`).
-/

namespace Knugget

/-- The newline character, written `\n` in the TypeScript string templates. -/
def NL : Char := '\n'

/-- The ECMAScript LineTerminator characters (LF, CR, LS, PS): the
characters the regex `.` refuses to match. -/
def lineTerm (c : Char) : Bool :=
  c == '\n' || c == '\r' || c == '\u2028' || c == '\u2029'

/-- Negation of `lineTerm`, the character class matched by JS `.`. -/
def notLT (c : Char) : Bool := !lineTerm c

/-- The character set stripped by `String.prototype.trim`: ECMAScript
WhiteSpace (TAB, VT, FF, SP, NBSP, ZWNBSP and the Unicode
space-separator category) together with the LineTerminator set. -/
def ws (c : Char) : Bool :=
  c == ' ' || c == '\t' || c == '\n' || c == '\x0b' || c == '\x0c' || c == '\r'
    || c == '\u00a0' || c == '\u1680'
    || ('\u2000' ≤ c && c ≤ '\u200a')
    || c == '\u2028' || c == '\u2029' || c == '\u202f' || c == '\u205f'
    || c == '\u3000' || c == '\ufeff'

/-- Model of JavaScript `s.trim()`: drop leading and trailing whitespace. -/
def trim (s : List Char) : List Char :=
  ((s.dropWhile ws).reverse.dropWhile ws).reverse

/-- Case-insensitive character comparison, as used by the `/i` regex flag. -/
def lowEq (a b : Char) : Bool := a.toLower == b.toLower

/-- Case-sensitive character comparison. -/
def ceq (a b : Char) : Bool := a == b

/-- `pfxBy eq m s` holds when `m` matches the beginning of `s`,
comparing characters with `eq`. -/
def pfxBy (eq : Char → Char → Bool) : List Char → List Char → Bool
  | [], _ => true
  | _ :: _, [] => false
  | a :: as, b :: bs => eq a b && pfxBy eq as bs

/-- Split a string at the first (leftmost) occurrence of the marker `m`,
matching characters with `eq`; returns the part before the occurrence and
the part after it, or `none` when the marker does not occur.  This models
the leftmost-match behaviour of JavaScript `String.prototype.match`. -/
def splitFirstBy (eq : Char → Char → Bool) (m : List Char) :
    List Char → Option (List Char × List Char)
  | [] => if m.isEmpty then some ([], []) else none
  | c :: cs =>
    if pfxBy eq m (c :: cs) then some ([], (c :: cs).drop m.length)
    else
      match splitFirstBy eq m cs with
      | none => none
      | some (a, b) => some (c :: a, b)

/-- `occursBy eq m s` is true when the marker `m` occurs somewhere in `s`. -/
def occursBy (eq : Char → Char → Bool) (m s : List Char) : Bool :=
  (splitFirstBy eq m s).isSome

/-- Auxiliary for `splitChar`: the piece before the first separator and the
remaining pieces. -/
def splitCharAux (c : Char) : List Char → List Char × List (List Char)
  | [] => ([], [])
  | a :: as =>
    let r := splitCharAux c as
    if a = c then ([], r.1 :: r.2) else (a :: r.1, r.2)

/-- Model of JavaScript `s.split(c)` for a single-character separator:
every occurrence of `c` separates two (possibly empty) pieces. -/
def splitChar (c : Char) (s : List Char) : List (List Char) :=
  (splitCharAux c s).1 :: (splitCharAux c s).2

/-- The `"Key Points:"` marker of the stored-summary grammar. -/
def kpMarker : List Char := ("Key Points:").data

/-- The blank-line separator `"\n\n"`. -/
def dblNL : List Char := [NL, NL]

/-- Default title used when the metadata carries none (`"Video Summary"`). -/
def defaultTitle : List Char := ("Video Summary").data

/-- Model of `keyPoints.map(p => "- " + p).join("\n")` from the encoder. -/
def joinPoints : List (List Char) → List Char
  | [] => []
  | [p] => '-' :: ' ' :: p
  | p :: q :: rest => '-' :: ' ' :: p ++ NL :: joinPoints (q :: rest)

/-- The encoder: the template
`` `${title}\n\nKey Points:\n${keyPoints.map(p => `- ${p}`).join("\n")}\n\n${fullSummary}` ``
used by both `POST /summary/generate` (variant 1) and `POST /summary/save`. -/
def encodeSummary (t : List Char) (ps : List (List Char)) (body : List Char) : List Char :=
  t ++ [NL, NL] ++ kpMarker ++ [NL] ++ joinPoints ps ++ [NL, NL] ++ body

/-- The structured form every read path reconstructs from the stored blob. -/
structure DecodedSummary where
  title : List Char
  keyPoints : List (List Char)
  fullSummary : List Char
deriving DecidableEq, Repr

/-- The `^(.*?)\n` title extraction.  JS `.` matches everything except
the LineTerminator set, so the match succeeds exactly when the first
line terminator of the input is a literal `\n`; the capture is the text
before it, trimmed.  When the input has no line terminator, or its first
one is `\r`/LS/PS, there is no match and the title stays empty. -/
def firstLineTitle (s : List Char) : List Char :=
  match s.dropWhile notLT with
  | c :: _ => if c = NL then trim (s.takeWhile notLT) else []
  | [] => []

/-- The read-path decoder shared by `GET /summary` (list) and
`GET /summary/:id`:
* title from `^(.*?)\n`, trimmed (empty when no newline);
* key points from `Key Points:([\s\S]*?)(?=\n\n|$)` (case-insensitive),
  split on `-`, each trimmed, empties dropped;
* full summary from `(?:Key Points:[\s\S]*?\n\n)([\s\S]*?)$`
  (case-sensitive), trimmed; the whole input when either match fails. -/
def decodeSummary (s : List Char) : DecodedSummary :=
  match splitFirstBy lowEq kpMarker s with
  | none => ⟨firstLineTitle s, [], s⟩
  | some (_, rest) =>
    let captured :=
      match splitFirstBy ceq dblNL rest with
      | some (a, _) => a
      | none => rest
    let kps := ((splitChar '-' captured).map trim).filter (fun p => !p.isEmpty)
    let fs :=
      match splitFirstBy ceq kpMarker s with
      | none => s
      | some (_, r2) =>
        match splitFirstBy ceq dblNL r2 with
        | none => s
        | some (_, b) => trim b
    ⟨firstLineTitle s, kps, fs⟩

/-- The decoder used in the `generate` routes' short-circuit branch: same
key-point and full-summary extraction, but the title defaults to
`metadata.title || "Video Summary"` and is only replaced by the first line
when the key-point marker was found. -/
def decodeForGenerate (mdTitle : Option (List Char)) (stored : List Char) : DecodedSummary :=
  let dflt :=
    match mdTitle with
    | some x => if x.isEmpty then defaultTitle else x
    | none => defaultTitle
  match splitFirstBy lowEq kpMarker stored with
  | none => ⟨dflt, [], stored⟩
  | some (_, rest) =>
    let captured :=
      match splitFirstBy ceq dblNL rest with
      | some (a, _) => a
      | none => rest
    let kps := ((splitChar '-' captured).map trim).filter (fun p => !p.isEmpty)
    let fs :=
      match splitFirstBy ceq kpMarker stored with
      | none => stored
      | some (_, r2) =>
        match splitFirstBy ceq dblNL r2 with
        | none => stored
        | some (_, b) => trim b
    let ttl :=
      match stored.dropWhile notLT with
      | c :: _ => if c = NL then trim (stored.takeWhile notLT) else dflt
      | [] => dflt
    ⟨ttl, kps, fs⟩

/-- Sentence delimiters of the transcript split `transcript.split(/[.!?]+/)`. -/
def isSentenceDelim (c : Char) : Bool := c == '.' || c == '!' || c == '?'

/-- Auxiliary for `splitRuns`; `inRun` records whether the previous
character was a sentence delimiter, so that a run of delimiters yields a
single separation. -/
def splitRunsAux (inRun : Bool) : List Char → List (List Char)
  | [] => [[]]
  | c :: cs =>
    if isSentenceDelim c then
      if inRun then splitRunsAux true cs
      else [] :: splitRunsAux true cs
    else
      match splitRunsAux false cs with
      | [] => [[c]]
      | r :: rs => (c :: r) :: rs

/-- Model of `s.split(/[.!?]+/)`: split on maximal runs of `.`, `!`, `?`;
a run of consecutive delimiters counts as a single separator. -/
def splitRuns (s : List Char) : List (List Char) := splitRunsAux false s

/-- Auxiliary for `dedupFirst`, carrying the elements already seen. -/
def dedupFirstAux (seen : List (List Char)) : List (List Char) → List (List Char)
  | [] => []
  | x :: xs =>
    if seen.contains x then dedupFirstAux seen xs
    else x :: dedupFirstAux (x :: seen) xs

/-- Model of `arr.filter((s, i, arr) => arr.indexOf(s) === i)`:
keep the first occurrence of each element. -/
def dedupFirst (l : List (List Char)) : List (List Char) := dedupFirstAux [] l

/-- The fixed prose opener `"This video discusses "`. -/
def discussIntro : List Char := ("This video discusses ").data

/-- The join separator `". It also covers "`. -/
def coversSep : List Char := (". It also covers ").data

/-- The `summary || ...` fallback message. -/
def genFailMsg : List Char := ("Summary generation failed. Please try again.").data

/-- The Generation Adapter (`generateSummary`, Gemini-file variant): a pure
local heuristic.  Sentences are the pieces of `split(/[.!?]+/)` whose
trimmed length exceeds 20; the first five, trimmed and deduplicated, become
the key points; the full summary is the fixed opener followed by the key
points joined with `". It also covers "`. -/
def generateSummaryModel (transcript : List Char) (mdTitle : Option (List Char)) :
    DecodedSummary :=
  let title :=
    match mdTitle with
    | some x => if x.isEmpty then defaultTitle else x
    | none => defaultTitle
  let sentences := (splitRuns transcript).filter (fun s => 20 < (trim s).length)
  let keyPoints := dedupFirst ((sentences.take 5).map trim)
  let summary := discussIntro ++ List.intercalate coversSep keyPoints
  ⟨title, if keyPoints.isEmpty then [] else keyPoints,
    if summary.isEmpty then genFailMsg else summary⟩

/-- `okTail a` holds when `a` contains no two adjacent newlines and does
not end with a newline — exactly the strings in which no occurrence of the
blank-line separator `"\n\n"` can start. -/
def okTail : List Char → Bool
  | [] => true
  | [c] => !(c == NL)
  | c :: c2 :: rest => !(c == NL && c2 == NL) && okTail (c2 :: rest)

/-- A row of the `User` table (the fields the routes read and write). -/
structure UserRec where
  id : Nat
  email : List Char
  credits : Int
deriving DecidableEq, Repr

/-- A row of the `Summary` table.  Variant-1 creates omit `title` and
`videoId`; they are modelled as the empty string there. -/
structure SummaryRec where
  id : Nat
  userId : Nat
  videoUrl : List Char
  summary : List Char
  transcript : List Char
  title : List Char
  videoId : List Char
  createdAt : Nat
deriving DecidableEq, Repr

/-- The persistent store: the two tables plus the generator of fresh row
ids and the current timestamp used for `createdAt`. -/
structure Db where
  users : List UserRec
  summaries : List SummaryRec
  nextId : Nat
  now : Nat
deriving DecidableEq, Repr

/-- The request's `metadata` object: `videoId`, optional `url`, optional
`title` (absent or empty strings are falsy). -/
structure Metadata where
  videoId : Option (List Char)
  url : Option (List Char)
  title : Option (List Char)
deriving DecidableEq, Repr

/-- JavaScript truthiness for an optional string field. -/
def optNonempty : Option (List Char) → Bool
  | none => false
  | some s => !s.isEmpty

/-- The derived default URL `https://www.youtube.com/watch?v=` + videoId. -/
def urlBase : List Char := ("https://www.youtube.com/watch?v=").data

/-- `metadata.url || "https://www.youtube.com/watch?v=" + metadata.videoId`. -/
def videoUrlOf (md : Metadata) : List Char :=
  match md.url with
  | some u => if u.isEmpty then urlBase ++ md.videoId.getD [] else u
  | none => urlBase ++ md.videoId.getD []

/-- Credit balance of a user in a store, when the user exists. -/
def creditsOf (uid : Nat) (db : Db) : Option Int :=
  (db.users.find? (fun u => u.id == uid)).map (fun u => u.credits)

/-- Responses of `POST /summary/generate`, variant 1. -/
inductive Resp1 where
  | badRequest
  | userNotFound
  | genFailed
  | hit (d : DecodedSummary) (sourceUrl : List Char) (id : Nat) (createdAt : Nat)
  | fresh (title : List Char) (keyPoints : List (List Char)) (fullSummary : List Char)
      (id : Option Nat) (sourceUrl : List Char) (createdAt : Option Nat)
      (creditsRemaining : Int)
deriving DecidableEq, Repr

/-- `POST /summary/generate`, first variant: look up an existing record by
`videoUrl` alone (no user filter) and short-circuit; otherwise read the
user's credits (no balance check), generate, then — inside one
`$transaction` — create the record and decrement the credits.  `txOk`
models whether that transaction commits; on failure the route catches the
error and still answers success with no record id. -/
def generateV1 (txOk : Bool) (uid : Nat) (content : List Char) (md : Metadata)
    (db : Db) : Resp1 × Db :=
  if content.isEmpty then (.badRequest, db)
  else if !optNonempty md.videoId then (.badRequest, db)
  else
    let url := videoUrlOf md
    match db.summaries.find? (fun s => s.videoUrl == url) with
    | some ex => (.hit (decodeForGenerate md.title ex.summary) ex.videoUrl ex.id ex.createdAt, db)
    | none =>
      match db.users.find? (fun u => u.id == uid) with
      | none => (.userNotFound, db)
      | some u =>
        let g := generateSummaryModel content md.title
        if g.fullSummary.isEmpty then (.genFailed, db)
        else
          let text := encodeSummary g.title g.keyPoints g.fullSummary
          if txOk then
            let nr : SummaryRec := ⟨db.nextId, uid, url, text, content, [], [], db.now⟩
            (.fresh g.title g.keyPoints g.fullSummary (some nr.id) url (some nr.createdAt)
                (max 0 (u.credits - 1)),
              { db with
                  summaries := db.summaries ++ [nr]
                  users := db.users.map
                    (fun v => if v.id = uid then { v with credits := v.credits - 1 } else v)
                  nextId := db.nextId + 1 })
          else
            (.fresh g.title g.keyPoints g.fullSummary none url none
                (max 0 (u.credits - 1)), db)

/-- Responses of `POST /summary/generate`, variant 2. -/
inductive Resp2 where
  | badRequest
  | userNotFound
  | forbidden
  | genFailed
  | hit (d : DecodedSummary) (sourceUrl : List Char) (id : Nat) (createdAt : Nat)
  | fresh (title : List Char) (keyPoints : List (List Char)) (fullSummary : List Char)
      (sourceUrl : List Char) (creditsRemaining : Int)
deriving DecidableEq, Repr

/-- `POST /summary/generate`, second variant: look up an existing record by
`(videoUrl, userId)` and short-circuit (`alreadySaved: true`); otherwise
reject with 403 when the balance is ≤ 0, generate, decrement the credits,
and return the summary **without persisting it** (`alreadySaved: false`). -/
def generateV2 (uid : Nat) (content : List Char) (md : Metadata) (db : Db) :
    Resp2 × Db :=
  if content.isEmpty then (.badRequest, db)
  else if !optNonempty md.videoId then (.badRequest, db)
  else
    let url := videoUrlOf md
    match db.summaries.find? (fun s => s.videoUrl == url && s.userId == uid) with
    | some ex => (.hit (decodeForGenerate md.title ex.summary) ex.videoUrl ex.id ex.createdAt, db)
    | none =>
      match db.users.find? (fun u => u.id == uid) with
      | none => (.userNotFound, db)
      | some u =>
        if u.credits ≤ 0 then (.forbidden, db)
        else
          let g := generateSummaryModel content md.title
          if g.fullSummary.isEmpty then (.genFailed, db)
          else
            (.fresh g.title g.keyPoints g.fullSummary url (max 0 (u.credits - 1)),
              { db with
                  users := db.users.map
                    (fun v => if v.id = uid then { v with credits := v.credits - 1 } else v) })

/-- Responses of `POST /summary/save`. -/
inductive SaveResp where
  | badRequest
  | already (id : Nat) (createdAt : Nat)
  | created (id : Nat) (createdAt : Nat)
deriving DecidableEq, Repr

/-- `sourceUrl || "https://www.youtube.com/watch?v=" + videoId` of the
save routes. -/
def saveUrlOf (sourceUrl : Option (List Char)) (videoId : List Char) : List Char :=
  match sourceUrl with
  | some u => if u.isEmpty then urlBase ++ videoId else u
  | none => urlBase ++ videoId

/-- `POST /summary/save`, first variant: no existing-record check — a new
row is created unconditionally (transcript stored empty). -/
def saveV1 (uid : Nat) (videoId title : List Char) (kps : List (List Char))
    (fs : List Char) (sourceUrl : Option (List Char)) (db : Db) : SaveResp × Db :=
  if videoId.isEmpty || title.isEmpty || fs.isEmpty then (.badRequest, db)
  else
    let url := saveUrlOf sourceUrl videoId
    let text := encodeSummary title kps fs
    let nr : SummaryRec := ⟨db.nextId, uid, url, text, [], [], [], db.now⟩
    (.created nr.id nr.createdAt,
      { db with summaries := db.summaries ++ [nr], nextId := db.nextId + 1 })

/-- `POST /summary/save`, second variant: return the existing record for
`(videoUrl, userId)` when present (`alreadySaved: true`), otherwise create
the row (with `title`, `videoId` and the optional transcript). -/
def saveV2 (uid : Nat) (videoId title : List Char) (kps : List (List Char))
    (fs : List Char) (sourceUrl : Option (List Char))
    (transcript : Option (List Char)) (db : Db) : SaveResp × Db :=
  if videoId.isEmpty || title.isEmpty || fs.isEmpty then (.badRequest, db)
  else
    let url := saveUrlOf sourceUrl videoId
    match db.summaries.find? (fun s => s.videoUrl == url && s.userId == uid) with
    | some ex => (.already ex.id ex.createdAt, db)
    | none =>
      let text := encodeSummary title kps fs
      let nr : SummaryRec :=
        ⟨db.nextId, uid, url, text, transcript.getD [], title, videoId, db.now⟩
      (.created nr.id nr.createdAt,
        { db with summaries := db.summaries ++ [nr], nextId := db.nextId + 1 })

/-- `DELETE /summary/:id` (identical in both variants): find the record by
`(id, userId)`; answer 404 when absent or owned by another user, else
delete by id.  The result is the HTTP status and the new store. -/
def deleteSummaryRoute (uid sid : Nat) (db : Db) : Nat × Db :=
  match db.summaries.find? (fun s => s.id == sid && s.userId == uid) with
  | none => (404, db)
  | some _ =>
    (200, { db with summaries := db.summaries.filter (fun s => !(s.id == sid)) })

/-- Responses of `POST /auth/signup`. -/
inductive SignupResp where
  | missingFields
  | alreadyRegistered
  | ok (uid : Nat) (credits : Int)
deriving DecidableEq, Repr

/-- HTTP status of a signup response: the duplicate-email branch answers
`res.status(400)` (`"User already exists"`), not 409. -/
def signupStatus : SignupResp → Nat
  | .missingFields => 400
  | .alreadyRegistered => 400
  | .ok _ _ => 200

/-- `POST /auth/signup`: reject on missing fields; reject when a user with
the email exists; otherwise create the user with `credits: 10`. -/
def signup (email password name : List Char) (db : Db) : SignupResp × Db :=
  if email.isEmpty || password.isEmpty || name.isEmpty then (.missingFields, db)
  else
    match db.users.find? (fun u => u.email == email) with
    | some _ => (.alreadyRegistered, db)
    | none =>
      let nu : UserRec := ⟨db.nextId, email, 10⟩
      (.ok nu.id nu.credits,
        { db with users := db.users ++ [nu], nextId := db.nextId + 1 })

/-- `true` exactly on the responses variant-1 generate sends with
`success: true` (HTTP 200). -/
def isSuccessV1 : Resp1 → Bool
  | .hit _ _ _ _ => true
  | .fresh _ _ _ _ _ _ _ => true
  | _ => false

/-- Concrete request metadata used by witnesses and counterexamples. -/
def exMd : Metadata := ⟨some (("vid").data), none, none⟩

/-- Concrete transcript used by witnesses and counterexamples. -/
def exContent : List Char := ("hi.").data

/-- A store with one user (id 1, ten credits) and no summaries. -/
def exDb : Db := ⟨[⟨1, ("a@b.c").data, 10⟩], [], 5, 100⟩

/-- A store with one user (id 1) whose balance is zero. -/
def exDbZero : Db := ⟨[⟨1, ("a@b.c").data, 0⟩], [], 5, 100⟩

/-- A stored summary owned by user 1 for `exMd`'s video. -/
def exStored : SummaryRec :=
  ⟨7, 1, videoUrlOf exMd, ("T\n\nKey Points:\n- p\n\nB").data, [], [], [], 50⟩

/-- A store with two users and user 1's stored summary `exStored`. -/
def exDbOwn : Db :=
  ⟨[⟨1, ("a@b.c").data, 10⟩, ⟨2, ("b@c.d").data, 10⟩], [exStored], 9, 200⟩


/-! ### Lemmas about prefix matching and leftmost-occurrence splitting -/

/-- A marker matches at the front of any string that extends it, provided
the comparison is reflexive. -/
theorem pfxBy_self_append (eq : Char → Char → Bool) (he : ∀ c, eq c c = true) :
    ∀ (m z : List Char), pfxBy eq m (m ++ z) = true := by
  intro m
  induction m with
  | nil => intro z; simp [pfxBy]
  | cons a as ih => intro z; simp [pfxBy, he a, ih z]

/-- A prefix match that fits inside the first block of an append is a
prefix match on that block. -/
theorem pfxBy_of_le_length (eq : Char → Char → Bool) :
    ∀ (m x y : List Char), pfxBy eq m (x ++ y) = true → m.length ≤ x.length →
      pfxBy eq m x = true := by
  intro m
  induction m with
  | nil => intro x y _ _; simp [pfxBy]
  | cons a as ih =>
    intro x y h hl
    cases x with
    | nil => simp at hl
    | cons b bs =>
      simp only [List.cons_append, pfxBy, Bool.and_eq_true] at h
      simp only [pfxBy, Bool.and_eq_true]
      exact ⟨h.1, ih bs y h.2 (Nat.le_of_succ_le_succ hl)⟩

/-- A prefix match longer than the first block of `x ++ c0 :: y` compares
some marker character against `c0`. -/
theorem pfxBy_hits_boundary (eq : Char → Char → Bool) (c0 : Char) :
    ∀ (x m y : List Char), pfxBy eq m (x ++ c0 :: y) = true → x.length < m.length →
      ∃ c ∈ m, eq c c0 = true := by
  intro x
  induction x with
  | nil =>
    intro m y h hl
    cases m with
    | nil => simp at hl
    | cons a as =>
      simp only [List.nil_append, pfxBy, Bool.and_eq_true] at h
      exact ⟨a, List.mem_cons_self a as, h.1⟩
  | cons b bs ih =>
    intro m y h hl
    cases m with
    | nil => simp at hl
    | cons a as =>
      simp only [List.cons_append, pfxBy, Bool.and_eq_true] at h
      obtain ⟨c, hc, hceq⟩ := ih as y h.2 (Nat.lt_of_succ_lt_succ hl)
      exact ⟨c, List.mem_cons_of_mem a hc, hceq⟩

/-- Occurrence behind a head character that the marker does not match. -/
theorem occursBy_cons_of (eq : Char → Char → Bool) (m : List Char) (d : Char)
    (l : List Char) (hp : pfxBy eq m (d :: l) = false) :
    occursBy eq m (d :: l) = occursBy eq m l := by
  simp only [occursBy, splitFirstBy, hp, Bool.false_eq_true, if_false]
  cases hfind : splitFirstBy eq m l with
  | none => simp
  | some pr => cases pr; simp

/-- A prefix match somewhere inside a string makes the marker occur in any
extension of that string to the left. -/
theorem occursBy_of_pfxBy (eq : Char → Char → Bool) (m : List Char) :
    ∀ (a x : List Char), pfxBy eq m x = true → occursBy eq m (a ++ x) = true := by
  intro a
  induction a with
  | nil =>
    intro x h
    cases x with
    | nil =>
      cases m with
      | nil => simp [occursBy, splitFirstBy]
      | cons c cs => simp [pfxBy] at h
    | cons c cs => simp [occursBy, splitFirstBy, h]
  | cons d a' ih =>
    intro x h
    rw [List.cons_append]
    cases hb : pfxBy eq m (d :: (a' ++ x)) with
    | true => simp [occursBy, splitFirstBy, hb]
    | false =>
      rw [occursBy_cons_of eq m d _ hb]
      exact ih x h

/-- Monotonicity of prefix matching in the character comparison. -/
theorem pfxBy_mono {eq1 eq2 : Char → Char → Bool}
    (himp : ∀ a b, eq1 a b = true → eq2 a b = true) :
    ∀ (m s : List Char), pfxBy eq1 m s = true → pfxBy eq2 m s = true := by
  intro m
  induction m with
  | nil => intro s _; simp [pfxBy]
  | cons a as ih =>
    intro s h
    cases s with
    | nil => simp [pfxBy] at h
    | cons b bs =>
      simp only [pfxBy, Bool.and_eq_true] at h ⊢
      exact ⟨himp a b h.1, ih bs h.2⟩

/-- Monotonicity of occurrence in the character comparison. -/
theorem occursBy_mono {eq1 eq2 : Char → Char → Bool}
    (himp : ∀ a b, eq1 a b = true → eq2 a b = true) (m : List Char) :
    ∀ s : List Char, occursBy eq1 m s = true → occursBy eq2 m s = true := by
  intro s
  induction s with
  | nil =>
    intro h
    simpa [occursBy, splitFirstBy] using h
  | cons c cs ih =>
    intro h
    cases hb2 : pfxBy eq2 m (c :: cs) with
    | true => simp [occursBy, splitFirstBy, hb2]
    | false =>
      have hb1 : pfxBy eq1 m (c :: cs) = false := by
        cases hb1 : pfxBy eq1 m (c :: cs) with
        | false => rfl
        | true => exact absurd (pfxBy_mono himp _ _ hb1) (by simp [hb2])
      rw [occursBy_cons_of eq1 m c cs hb1] at h
      rw [occursBy_cons_of eq2 m c cs hb2]
      exact ih h

/-- The leftmost occurrence of the marker in `a ++ (m ++ b)` is the
explicit one, provided no occurrence can start inside `a`. -/
theorem splitFirstBy_append (eq : Char → Char → Bool) (m : List Char)
    (hm : m ≠ []) (he : ∀ c, eq c c = true) :
    ∀ (a b : List Char),
      (∀ a1 a2, a = a1 ++ a2 → a2 ≠ [] → pfxBy eq m (a2 ++ (m ++ b)) = false) →
      splitFirstBy eq m (a ++ (m ++ b)) = some (a, b) := by
  intro a
  induction a with
  | nil =>
    intro b _
    rw [List.nil_append]
    cases hmm : m with
    | nil => exact absurd hmm hm
    | cons mh mt =>
      rw [← hmm]
      have hpfx : pfxBy eq m (m ++ b) = true := pfxBy_self_append eq he m b
      have hcons : m ++ b = mh :: (mt ++ b) := by rw [hmm]; rfl
      rw [hcons] at hpfx ⊢
      simp only [splitFirstBy, hpfx, if_true]
      rw [← hcons, List.drop_left]
  | cons c a' ih =>
    intro b hno
    have hhead : pfxBy eq m ((c :: a') ++ (m ++ b)) = false :=
      hno [] (c :: a') rfl (by simp)
    rw [List.cons_append]
    rw [List.cons_append] at hhead
    simp only [splitFirstBy, hhead, Bool.false_eq_true, if_false]
    have hrec := ih b (fun a1 a2 h12 hne => hno (c :: a1) a2 (by rw [h12]; rfl) hne)
    rw [hrec]

/-- When no occurrence of the marker can start anywhere, the split fails. -/
theorem splitFirstBy_eq_none (eq : Char → Char → Bool) (m : List Char)
    (hm : m ≠ []) :
    ∀ s : List Char,
      (∀ a1 a2, s = a1 ++ a2 → a2 ≠ [] → pfxBy eq m a2 = false) →
      splitFirstBy eq m s = none := by
  intro s
  induction s with
  | nil =>
    intro _
    cases m with
    | nil => exact absurd rfl hm
    | cons mh mt => simp [splitFirstBy]
  | cons c cs ih =>
    intro hno
    have hhead : pfxBy eq m (c :: cs) = false := by
      have := hno [] (c :: cs) rfl (by simp)
      simpa using this
    simp only [splitFirstBy, hhead, Bool.false_eq_true, if_false]
    have hrec := ih (fun a1 a2 h12 hne => hno (c :: a1) a2 (by rw [h12]; rfl) hne)
    rw [hrec]

/-- No occurrence of a newline-free marker that is absent from `t` can
start inside `t ++ "\n\n"`, whatever follows. -/
theorem noStart_seg (eq : Char → Char → Bool) (m : List Char) (hm : m ≠ [])
    (hnl : ∀ c ∈ m, eq c NL = false) (t : List Char)
    (ht : occursBy eq m t = false) (z : List Char) :
    ∀ a1 a2, t ++ [NL, NL] = a1 ++ a2 → a2 ≠ [] → pfxBy eq m (a2 ++ z) = false := by
  intro a1 a2 heq hne
  cases hp : pfxBy eq m (a2 ++ z) with
  | false => rfl
  | true =>
    exfalso
    rcases List.append_eq_append_iff.mp heq with ⟨w, hw1, hw2⟩ | ⟨w, hw1, hw2⟩
    · -- `a2` is a nonempty suffix of `"\n\n"`, so it starts with a newline
      have hstart : ∃ l, a2 ++ z = NL :: l := by
        cases w with
        | nil =>
          rw [List.nil_append] at hw2
          rw [← hw2]
          exact ⟨NL :: z, rfl⟩
        | cons x w' =>
          have hx : x = NL := by
            have := congrArg (fun l => l.headI) hw2
            simpa using this.symm
          cases w' with
          | nil =>
            have : a2 = [NL] := by
              have := congrArg List.tail hw2
              simpa using this.symm
            rw [this]
            exact ⟨z, rfl⟩
          | cons y w'' =>
            have : w'' ++ a2 = [] := by
              have := congrArg (fun l => l.tail.tail) hw2
              simpa using this.symm
            exact absurd (List.append_eq_nil.mp this).2 hne
      obtain ⟨l, hl⟩ := hstart
      rw [hl] at hp
      cases m with
      | nil => exact hm rfl
      | cons mh mt =>
        have hmh : eq mh NL = false := hnl mh (List.mem_cons_self mh mt)
        simp [pfxBy, hmh] at hp
    · -- `a2 = w ++ "\n\n"` with `t = a1 ++ w`
      rw [hw2, List.append_assoc] at hp
      rcases le_or_lt m.length w.length with hle | hlt
      · have hw : pfxBy eq m w = true := pfxBy_of_le_length eq m w _ hp hle
        have : occursBy eq m t = true := by
          rw [hw1]; exact occursBy_of_pfxBy eq m a1 w hw
        rw [this] at ht; simp at ht
      · have hcons : [NL, NL] ++ z = NL :: (NL :: z) := rfl
        rw [hcons] at hp
        obtain ⟨c, hc, hceq⟩ := pfxBy_hits_boundary eq NL w m (NL :: z) hp hlt
        rw [hnl c hc] at hceq
        simp at hceq

/-- `takeWhile` runs through a block whose characters all satisfy the
predicate. -/
theorem takeWhile_append_all (p : Char → Bool) :
    ∀ (t x : List Char), (∀ c ∈ t, p c = true) →
      (t ++ x).takeWhile p = t ++ x.takeWhile p := by
  intro t
  induction t with
  | nil => intro x _; rfl
  | cons a t' ih =>
    intro x h
    have ha : p a = true := h a (List.mem_cons_self a t')
    have h' : ∀ c ∈ t', p c = true := fun c hc => h c (List.mem_cons_of_mem a hc)
    simp [List.takeWhile_cons, ha, ih x h']

/-- `dropWhile` runs through a block whose characters all satisfy the
predicate. -/
theorem dropWhile_append_all (p : Char → Bool) :
    ∀ (t x : List Char), (∀ c ∈ t, p c = true) →
      (t ++ x).dropWhile p = x.dropWhile p := by
  intro t
  induction t with
  | nil => intro x _; rfl
  | cons a t' ih =>
    intro x h
    have ha : p a = true := h a (List.mem_cons_self a t')
    have h' : ∀ c ∈ t', p c = true := fun c hc => h c (List.mem_cons_of_mem a hc)
    simp [List.dropWhile_cons, ha, ih x h']

/-- The head of a `dropWhile` result is a member of the input. -/
theorem dropWhile_head_mem (p : Char → Bool) :
    ∀ (s : List Char) (c : Char) (rest : List Char),
      s.dropWhile p = c :: rest → c ∈ s := by
  intro s
  induction s with
  | nil => intro c rest h; simp [List.dropWhile] at h
  | cons a as ih =>
    intro c rest h
    cases hpa : p a with
    | true =>
      rw [List.dropWhile_cons, hpa] at h
      simp only [if_true] at h
      exact List.mem_cons_of_mem a (ih c rest h)
    | false =>
      rw [List.dropWhile_cons, hpa] at h
      simp only [Bool.false_eq_true, if_false, List.cons.injEq] at h
      rw [h.1]
      exact List.mem_cons_self c as

/-- The title extraction on a blob whose prefix before the first `\n` is
free of line terminators: the trimmed prefix. -/
theorem firstLineTitle_encode (t z : List Char)
    (h : ∀ c ∈ t, lineTerm c = false) :
    firstLineTitle (t ++ NL :: z) = trim t := by
  have hp : ∀ c ∈ t, notLT c = true := fun c hc => by simp [notLT, h c hc]
  have hNL : notLT NL = false := by decide
  have hd : (t ++ NL :: z).dropWhile notLT = NL :: z := by
    rw [dropWhile_append_all notLT t (NL :: z) hp, List.dropWhile_cons, hNL]
    simp
  have htk : (t ++ NL :: z).takeWhile notLT = t := by
    rw [takeWhile_append_all notLT t (NL :: z) hp, List.takeWhile_cons, hNL]
    simp
  simp [firstLineTitle, hd, htk]

/-- Without a literal `\n` in the input, the title regex cannot match. -/
theorem firstLineTitle_no_nl (s : List Char) (h : NL ∉ s) :
    firstLineTitle s = [] := by
  cases hd : s.dropWhile notLT with
  | nil => simp [firstLineTitle, hd]
  | cons c rest =>
    have hc : c ∈ s := dropWhile_head_mem notLT s c rest hd
    have hcne : ¬ (c = NL) := fun hh => h (hh ▸ hc)
    simp [firstLineTitle, hd, hcne]

/-! ### Lemmas about `okTail` (where a blank line cannot start) -/

/-- `okTail` passes to the tail. -/
theorem okTail_tail (c : Char) (l : List Char) (h : okTail (c :: l) = true) :
    okTail l = true := by
  cases l with
  | nil => rfl
  | cons d l' =>
    simp only [okTail, Bool.and_eq_true] at h
    exact h.2

/-- `okTail` passes to every suffix. -/
theorem okTail_suffix :
    ∀ (a1 a2 : List Char), okTail (a1 ++ a2) = true → okTail a2 = true := by
  intro a1
  induction a1 with
  | nil => intro a2 h; exact h
  | cons c a1' ih =>
    intro a2 h
    exact ih a2 (okTail_tail c (a1' ++ a2) h)

/-- Newline-free strings satisfy `okTail`. -/
theorem okTail_of_not_mem : ∀ x : List Char, NL ∉ x → okTail x = true := by
  intro x
  induction x with
  | nil => intro _; rfl
  | cons c rest ih =>
    intro h
    have hc : ¬ (c = NL) := fun hh => h (hh ▸ List.mem_cons_self c rest)
    cases rest with
    | nil => simp [okTail, hc]
    | cons d rest' =>
      have hrest : okTail (d :: rest') = true :=
        ih (fun hm => h (List.mem_cons_of_mem c hm))
      simp [okTail, hc, hrest]

/-- Appending behind a newline-free block preserves `okTail` verbatim. -/
theorem okTail_append : ∀ (x y : List Char), NL ∉ x → okTail (x ++ y) = okTail y := by
  intro x
  induction x with
  | nil => intro y _; rfl
  | cons c x' ih =>
    intro y h
    have hc : ¬ (c = NL) := fun hh => h (hh ▸ List.mem_cons_self c x')
    have hx' : NL ∉ x' := fun hm => h (List.mem_cons_of_mem c hm)
    rw [List.cons_append]
    cases hcase : x' ++ y with
    | nil =>
      rcases List.append_eq_nil.mp hcase with ⟨hx'e, hye⟩
      subst hye
      simp [okTail, hc, hx'e]
    | cons d l =>
      rw [show okTail (c :: d :: l) = (!(c == NL && d == NL) && okTail (d :: l)) from rfl]
      rw [← hcase, ih y hx']
      simp [hc]

/-- No occurrence of `"\n\n"` can start inside a string satisfying
`okTail`, whatever follows it. -/
theorem noStart_dblNL (a : List Char) (hok : okTail a = true) (z : List Char) :
    ∀ a1 a2, a = a1 ++ a2 → a2 ≠ [] → pfxBy ceq dblNL (a2 ++ z) = false := by
  intro a1 a2 heq hne
  have hsuf : okTail a2 = true := okTail_suffix a1 a2 (heq ▸ hok)
  cases a2 with
  | nil => exact absurd rfl hne
  | cons c cs =>
    cases cs with
    | nil =>
      have hc : ¬ (c = NL) := by
        simp only [okTail] at hsuf
        intro hh
        rw [hh] at hsuf
        simp at hsuf
      have : ¬ (NL = c) := fun hh => hc hh.symm
      simp [dblNL, pfxBy, ceq, this]
    | cons d l =>
      simp only [okTail, Bool.and_eq_true] at hsuf
      have hnd : ¬ (c = NL ∧ d = NL) := by
        intro ⟨h1, h2⟩
        rw [h1, h2] at hsuf
        simp at hsuf
      rw [List.cons_append, List.cons_append]
      cases hcnl : (NL == c) with
      | false => simp [dblNL, pfxBy, ceq, hcnl]
      | true =>
        have h1 : c = NL := (beq_iff_eq.mp hcnl).symm
        have h2 : ¬ (d = NL) := fun hh => hnd ⟨h1, hh⟩
        have h2' : ¬ (NL = d) := fun hh => h2 hh.symm
        simp [dblNL, pfxBy, ceq, h2']

/-- The joined key-point block, preceded by its newline, satisfies
`okTail`: points are nonempty and newline-free, so no blank line occurs
before the terminator the encoder writes. -/
theorem okTail_joinPoints :
    ∀ ps : List (List Char), (∀ p ∈ ps, p ≠ [] ∧ NL ∉ p) → ps ≠ [] →
      okTail (NL :: joinPoints ps) = true := by
  intro ps
  induction ps with
  | nil => intro _ hne; exact absurd rfl hne
  | cons p rest ih =>
    intro hp _
    have hpnl : NL ∉ p := (hp p (List.mem_cons_self p rest)).2
    cases rest with
    | nil =>
      show okTail (NL :: '-' :: ' ' :: p) = true
      rw [show okTail (NL :: '-' :: ' ' :: p)
            = (!(NL == NL && '-' == NL) && okTail ('-' :: ' ' :: p)) from rfl]
      have : okTail ('-' :: ' ' :: p) = true := by
        apply okTail_of_not_mem
        intro hm
        rcases List.mem_cons.mp hm with h1 | hm2
        · exact absurd h1.symm (by decide)
        · rcases List.mem_cons.mp hm2 with h2 | hm3
          · exact absurd h2.symm (by decide)
          · exact hpnl hm3
      simp only [this, Bool.and_true]
      decide
    | cons q rest' =>
      have hrec : okTail (NL :: joinPoints (q :: rest')) = true :=
        ih (fun x hx => hp x (List.mem_cons_of_mem p hx)) (by simp)
      show okTail (NL :: ('-' :: ' ' :: p ++ NL :: joinPoints (q :: rest'))) = true
      rw [show (NL :: ('-' :: ' ' :: p ++ NL :: joinPoints (q :: rest')))
            = NL :: '-' :: ((' ' :: p) ++ NL :: joinPoints (q :: rest')) from rfl]
      rw [show okTail (NL :: '-' :: ((' ' :: p) ++ NL :: joinPoints (q :: rest')))
            = (!(NL == NL && '-' == NL)
                && okTail ('-' :: ((' ' :: p) ++ NL :: joinPoints (q :: rest')))) from rfl]
      have hx : NL ∉ ('-' :: ' ' :: p) := by
        intro hm
        rcases List.mem_cons.mp hm with h1 | hm2
        · exact absurd h1 (by decide)
        · rcases List.mem_cons.mp hm2 with h2 | hm3
          · exact absurd h2 (by decide)
          · exact hpnl hm3
      have := okTail_append ('-' :: ' ' :: p) (NL :: joinPoints (q :: rest')) hx
      rw [show ('-' :: ((' ' :: p) ++ NL :: joinPoints (q :: rest')))
            = ('-' :: ' ' :: p) ++ NL :: joinPoints (q :: rest') from rfl]
      rw [this, hrec]
      rfl

/-! ### Lemmas about `splitChar` and `trim` -/

/-- Splitting a separator-free string yields one piece. -/
theorem splitCharAux_no (c : Char) :
    ∀ w : List Char, c ∉ w → splitCharAux c w = (w, []) := by
  intro w
  induction w with
  | nil => intro _; rfl
  | cons a as ih =>
    intro h
    have ha : ¬ (a = c) := fun hh => h (hh ▸ List.mem_cons_self a as)
    have := ih (fun hm => h (List.mem_cons_of_mem a hm))
    simp [splitCharAux, ha, this]

/-- The first separator occurrence after a separator-free block splits the
string there. -/
theorem splitCharAux_append (c : Char) :
    ∀ (w ys : List Char), c ∉ w →
      splitCharAux c (w ++ c :: ys) = (w, splitChar c ys) := by
  intro w
  induction w with
  | nil =>
    intro ys _
    simp [splitCharAux, splitChar]
  | cons a as ih =>
    intro ys h
    have ha : ¬ (a = c) := fun hh => h (hh ▸ List.mem_cons_self a as)
    have := ih ys (fun hm => h (List.mem_cons_of_mem a hm))
    simp [splitCharAux, ha, this]

/-- `splitChar` on a separator-free string. -/
theorem splitChar_no (c : Char) (w : List Char) (h : c ∉ w) :
    splitChar c w = [w] := by
  simp [splitChar, splitCharAux_no c w h]

/-- `splitChar` peels the piece before the first separator. -/
theorem splitChar_append (c : Char) (w ys : List Char) (h : c ∉ w) :
    splitChar c (w ++ c :: ys) = w :: splitChar c ys := by
  simp [splitChar, splitCharAux_append c w ys h]

/-- Trimming ignores a leading whitespace character. -/
theorem trim_cons_ws (c : Char) (x : List Char) (h : ws c = true) :
    trim (c :: x) = trim x := by
  simp [trim, List.dropWhile, h]

/-- Trimming ignores a trailing whitespace character. -/
theorem trim_append_ws (c : Char) (x : List Char) (h : ws c = true) :
    trim (x ++ [c]) = trim x := by
  by_cases h0 : (x.dropWhile ws).isEmpty = true
  · have hx : x.dropWhile ws = [] := by
      cases hd : x.dropWhile ws with
      | nil => rfl
      | cons a l => rw [hd] at h0; simp at h0
    simp [trim, List.dropWhile_append, hx, List.dropWhile, h]
  · have hd : (x ++ [c]).dropWhile ws = x.dropWhile ws ++ [c] := by
      rw [List.dropWhile_append, if_neg h0]
    rw [trim, hd, List.reverse_append]
    simp [List.dropWhile, h, trim]

/-- Trimming a trimmed point with one leading space. -/
theorem trim_space_point (p : List Char) (hp : trim p = p) :
    trim (' ' :: p) = p := by
  rw [trim_cons_ws ' ' p (by decide), hp]

/-- Trimming a trimmed point with a leading space and trailing newline. -/
theorem trim_space_point_nl (p : List Char) (hp : trim p = p) :
    trim (' ' :: (p ++ [NL])) = p := by
  rw [trim_cons_ws ' ' (p ++ [NL]) (by decide), trim_append_ws NL p (by decide), hp]

/-- Splitting the encoder's joined key-point block on `-`, trimming the
pieces and dropping the empty ones recovers the points, together with the
trim of whatever separator-free block precedes the first point. -/
theorem splitJoin :
    ∀ ps : List (List Char),
      (∀ p ∈ ps, p ≠ [] ∧ trim p = p ∧ '-' ∉ p ∧ NL ∉ p) →
      ∀ w : List Char, '-' ∉ w →
        ((splitChar '-' (w ++ joinPoints ps)).map trim).filter (fun p => !p.isEmpty)
          = (if trim w = [] then [] else [trim w]) ++ ps := by
  intro ps
  induction ps with
  | nil =>
    intro _ w hw
    rw [joinPoints, List.append_nil, splitChar_no '-' w hw]
    by_cases h0 : trim w = []
    · simp [h0]
    · simp [h0, List.isEmpty_iff]
  | cons p rest ih =>
    intro hp w hw
    obtain ⟨hpne, hptrim, hpdash, hpnl⟩ := hp p (List.mem_cons_self p rest)
    cases rest with
    | nil =>
      rw [show joinPoints [p] = '-' :: ' ' :: p from rfl]
      rw [show w ++ '-' :: ' ' :: p = w ++ '-' :: (' ' :: p) from rfl]
      have hsp : '-' ∉ (' ' :: p) := by
        intro hm
        rcases List.mem_cons.mp hm with h1 | h2
        · exact absurd h1.symm (by decide)
        · exact hpdash h2
      rw [splitChar_append '-' w (' ' :: p) hw, splitChar_no '-' (' ' :: p) hsp]
      rw [List.map_cons, List.map_cons, List.map_nil]
      rw [trim_space_point p hptrim]
      by_cases h0 : trim w = []
      · simp [h0, List.isEmpty_iff, hpne]
      · simp [h0, List.isEmpty_iff, hpne]
    | cons q rest' =>
      rw [show joinPoints (p :: q :: rest')
            = '-' :: ' ' :: p ++ NL :: joinPoints (q :: rest') from rfl]
      have hshape : w ++ ('-' :: ' ' :: p ++ NL :: joinPoints (q :: rest'))
          = w ++ '-' :: ((' ' :: (p ++ [NL])) ++ joinPoints (q :: rest')) := by
        simp
      rw [hshape]
      have hw' : '-' ∉ (' ' :: (p ++ [NL])) := by
        intro hm
        rcases List.mem_cons.mp hm with h1 | h2
        · exact absurd h1.symm (by decide)
        · rcases List.mem_append.mp h2 with h3 | h4
          · exact hpdash h3
          · exact absurd (List.mem_singleton.mp h4).symm (by decide)
      rw [splitChar_append '-' w _ hw]
      have hrec := ih (fun x hx => hp x (List.mem_cons_of_mem p hx))
        (' ' :: (p ++ [NL])) hw'
      rw [List.map_cons, List.filter_cons]
      have htw' : trim (' ' :: (p ++ [NL])) = p := trim_space_point_nl p hptrim
      rw [htw'] at hrec
      have hpif : (if p = [] then ([] : List (List Char)) else [p]) = [p] := by
        simp [hpne]
      rw [hpif] at hrec
      by_cases h0 : trim w = []
      · simp only [h0, List.isEmpty_iff]
        simp only [hrec]
        simp [h0]
      · have : (!(trim w).isEmpty) = true := by
          simp [List.isEmpty_iff, h0]
        simp only [this, if_true]
        simp only [hrec]
        simp [h0]

/-! ### The codec round-trip -/

/-- Decoding an encoded blob recovers the original triple, provided the
title is trimmed, free of line terminators, and does not contain the
key-point marker (case-insensitively), every key point is nonempty,
trimmed, and free of `-` and newlines, and the prose is trimmed. -/
theorem decode_encode (t body : List Char) (ps : List (List Char))
    (htLT : ∀ c ∈ t, lineTerm c = false) (htTrim : trim t = t)
    (htM : occursBy lowEq kpMarker t = false)
    (hps : ps ≠ [])
    (hp : ∀ p ∈ ps, p ≠ [] ∧ trim p = p ∧ '-' ∉ p ∧ NL ∉ p)
    (hb : trim body = body) :
    decodeSummary (encodeSummary t ps body) = ⟨t, ps, body⟩ := by
  have heCI : ∀ c, lowEq c c = true := fun c => by simp [lowEq]
  have heCS : ∀ c, ceq c c = true := fun c => by simp [ceq]
  have hmne : kpMarker ≠ [] := by decide
  have hnlCI : ∀ c ∈ kpMarker, lowEq c NL = false := by decide
  have hnlCS : ∀ c ∈ kpMarker, ceq c NL = false := by decide
  have htMcs : occursBy ceq kpMarker t = false := by
    cases hcs : occursBy ceq kpMarker t with
    | false => rfl
    | true =>
      have himp : ∀ a b, ceq a b = true → lowEq a b = true := by
        intro a b hab
        have : a = b := by simpa [ceq] using hab
        rw [this]
        exact heCI b
      have := occursBy_mono himp kpMarker t hcs
      rw [htM] at this
      simp at this
  have hblob : encodeSummary t ps body
      = (t ++ [NL, NL]) ++ (kpMarker ++ (NL :: (joinPoints ps ++ NL :: NL :: body))) := by
    simp [encodeSummary, List.append_assoc]
  have hCI : splitFirstBy lowEq kpMarker (encodeSummary t ps body)
      = some (t ++ [NL, NL], NL :: (joinPoints ps ++ NL :: NL :: body)) := by
    rw [hblob]
    exact splitFirstBy_append lowEq kpMarker hmne heCI (t ++ [NL, NL]) _
      (noStart_seg lowEq kpMarker hmne hnlCI t htM _)
  have hCS : splitFirstBy ceq kpMarker (encodeSummary t ps body)
      = some (t ++ [NL, NL], NL :: (joinPoints ps ++ NL :: NL :: body)) := by
    rw [hblob]
    exact splitFirstBy_append ceq kpMarker hmne heCS (t ++ [NL, NL]) _
      (noStart_seg ceq kpMarker hmne hnlCS t htMcs _)
  have hblob2 : encodeSummary t ps body
      = t ++ NL :: (NL :: (kpMarker ++ (NL :: (joinPoints ps ++ NL :: NL :: body)))) := by
    simp [encodeSummary, List.append_assoc]
  have hFLT : firstLineTitle (encodeSummary t ps body) = trim t := by
    rw [hblob2]
    exact firstLineTitle_encode t _ htLT
  have hok : okTail (NL :: joinPoints ps) = true :=
    okTail_joinPoints ps (fun p hpm => ⟨(hp p hpm).1, (hp p hpm).2.2.2⟩) hps
  have hBshape : NL :: (joinPoints ps ++ NL :: NL :: body)
      = (NL :: joinPoints ps) ++ (dblNL ++ body) := by
    simp [dblNL]
  have hRest : splitFirstBy ceq dblNL (NL :: (joinPoints ps ++ NL :: NL :: body))
      = some (NL :: joinPoints ps, body) := by
    rw [hBshape]
    exact splitFirstBy_append ceq dblNL (by decide) heCS (NL :: joinPoints ps) body
      (noStart_dblNL (NL :: joinPoints ps) hok _)
  have hKP : ((splitChar '-' (NL :: joinPoints ps)).map trim).filter
      (fun p => !p.isEmpty) = ps := by
    have := splitJoin ps hp [NL] (by decide)
    rw [show trim [NL] = [] from by decide] at this
    simpa using this
  simp only [decodeSummary, hCI, hCS, hRest, hFLT]
  rw [htTrim, hb, hKP]

/-- Decoding a blob without the (case-insensitive) key-point marker:
no key points, the whole input as prose, and an empty title whenever the
input has no newline. -/
theorem decode_no_marker (s : List Char) (h : occursBy lowEq kpMarker s = false) :
    (decodeSummary s).keyPoints = [] ∧ (decodeSummary s).fullSummary = s ∧
      (NL ∉ s → (decodeSummary s).title = []) := by
  have hnone : splitFirstBy lowEq kpMarker s = none := by
    cases hf : splitFirstBy lowEq kpMarker s with
    | none => rfl
    | some pr => rw [occursBy, hf] at h; simp at h
  refine ⟨?_, ?_, ?_⟩
  · simp [decodeSummary, hnone]
  · simp [decodeSummary, hnone]
  · intro hnl
    simp [decodeSummary, hnone, firstLineTitle_no_nl s hnl]

/-- The Generation Adapter's full summary is never empty: it always starts
with the fixed `"This video discusses "` opener (or is the failure
sentinel). -/
theorem genModel_fullSummary_ne_nil (transcript : List Char)
    (mdTitle : Option (List Char)) :
    (generateSummaryModel transcript mdTitle).fullSummary ≠ [] := by
  have hd : discussIntro = 'T' :: ("his video discusses ").data := by decide
  simp only [generateSummaryModel, hd]
  simp

/-! ### Generic list helpers for the store model -/

/-- Searching the extension of a list where the search already failed. -/
theorem find?_append_none {α : Type} (p : α → Bool) :
    ∀ (l1 l2 : List α), l1.find? p = none → (l1 ++ l2).find? p = l2.find? p := by
  intro l1
  induction l1 with
  | nil => intro l2 _; rfl
  | cons a l ih =>
    intro l2 h
    rw [List.find?_cons] at h
    cases hpa : p a with
    | true => rw [hpa] at h; simp at h
    | false =>
      rw [hpa] at h
      simp only [List.cons_append, List.find?_cons, hpa]
      exact ih l2 h

/-- Looking up a user after the credit decrement of that user. -/
theorem find?_user_dec (uid : Nat) :
    ∀ l : List UserRec,
      (l.map (fun v => if v.id = uid then { v with credits := v.credits - 1 } else v)).find?
          (fun u => u.id == uid)
        = (l.find? (fun u => u.id == uid)).map
            (fun v => { v with credits := v.credits - 1 }) := by
  intro l
  induction l with
  | nil => rfl
  | cons v l ih =>
    by_cases hv : v.id = uid
    · simp [List.find?, hv]
    · have hb : (v.id == uid) = false := by simp [hv]
      simp [List.find?, hv, hb, ih]

/-! ### Characterizations of the route functions -/

/-- Variant-1 generate, short-circuit: any record whose `videoUrl` matches
— regardless of its owner — is decoded and returned, with no change to the
store. -/
theorem generateV1_hit (txOk : Bool) (uid : Nat) (content : List Char)
    (md : Metadata) (db : Db) (ex : SummaryRec)
    (hc : content ≠ []) (hv : optNonempty md.videoId = true)
    (hfind : db.summaries.find? (fun s => s.videoUrl == videoUrlOf md) = some ex) :
    generateV1 txOk uid content md db
      = (.hit (decodeForGenerate md.title ex.summary) ex.videoUrl ex.id ex.createdAt,
          db) := by
  have hce : content.isEmpty = false := by
    cases content with
    | nil => exact absurd rfl hc
    | cons a l => rfl
  simp [generateV1, hce, hv, hfind]

/-- Variant-1 generate, fresh path with the transaction committing: the
record is appended and the user's credits are decremented, in one step. -/
theorem generateV1_fresh (uid : Nat) (content : List Char) (md : Metadata)
    (db : Db) (u : UserRec)
    (hc : content ≠ []) (hv : optNonempty md.videoId = true)
    (hfind : db.summaries.find? (fun s => s.videoUrl == videoUrlOf md) = none)
    (huser : db.users.find? (fun v => v.id == uid) = some u) :
    generateV1 true uid content md db
      = (.fresh (generateSummaryModel content md.title).title
            (generateSummaryModel content md.title).keyPoints
            (generateSummaryModel content md.title).fullSummary
            (some db.nextId) (videoUrlOf md) (some db.now) (max 0 (u.credits - 1)),
          { db with
              summaries := db.summaries ++
                [⟨db.nextId, uid, videoUrlOf md,
                  encodeSummary (generateSummaryModel content md.title).title
                    (generateSummaryModel content md.title).keyPoints
                    (generateSummaryModel content md.title).fullSummary,
                  content, [], [], db.now⟩]
              users := db.users.map
                (fun v => if v.id = uid then { v with credits := v.credits - 1 } else v)
              nextId := db.nextId + 1 }) := by
  have hce : content.isEmpty = false := by
    cases content with
    | nil => exact absurd rfl hc
    | cons a l => rfl
  have hfs : (generateSummaryModel content md.title).fullSummary.isEmpty = false := by
    cases hx : (generateSummaryModel content md.title).fullSummary with
    | nil => exact absurd hx (genModel_fullSummary_ne_nil content md.title)
    | cons a l => rfl
  simp [generateV1, hce, hv, hfind, huser, hfs]

/-- Variant-1 generate, fresh path with the transaction failing: the store
is untouched and the route still answers success, with no record id. -/
theorem generateV1_txFail (uid : Nat) (content : List Char) (md : Metadata)
    (db : Db) (u : UserRec)
    (hc : content ≠ []) (hv : optNonempty md.videoId = true)
    (hfind : db.summaries.find? (fun s => s.videoUrl == videoUrlOf md) = none)
    (huser : db.users.find? (fun v => v.id == uid) = some u) :
    generateV1 false uid content md db
      = (.fresh (generateSummaryModel content md.title).title
            (generateSummaryModel content md.title).keyPoints
            (generateSummaryModel content md.title).fullSummary
            none (videoUrlOf md) none (max 0 (u.credits - 1)), db) := by
  have hce : content.isEmpty = false := by
    cases content with
    | nil => exact absurd rfl hc
    | cons a l => rfl
  have hfs : (generateSummaryModel content md.title).fullSummary.isEmpty = false := by
    cases hx : (generateSummaryModel content md.title).fullSummary with
    | nil => exact absurd hx (genModel_fullSummary_ne_nil content md.title)
    | cons a l => rfl
  simp [generateV1, hce, hv, hfind, huser, hfs]

/-- Variant-2 generate with an exhausted balance and no existing record:
403 and no write. -/
theorem generateV2_forbidden (uid : Nat) (content : List Char) (md : Metadata)
    (db : Db) (u : UserRec)
    (hc : content ≠ []) (hv : optNonempty md.videoId = true)
    (hfind : db.summaries.find?
        (fun s => s.videoUrl == videoUrlOf md && s.userId == uid) = none)
    (huser : db.users.find? (fun v => v.id == uid) = some u)
    (hcred : u.credits ≤ 0) :
    generateV2 uid content md db = (.forbidden, db) := by
  have hce : content.isEmpty = false := by
    cases content with
    | nil => exact absurd rfl hc
    | cons a l => rfl
  simp [generateV2, hce, hv, hfind, huser, hcred]

/-- Variant-2 save: return the existing `(videoUrl, userId)` record
untouched, or create exactly one new row when none exists. -/
theorem saveV2_spec (uid : Nat) (videoId title : List Char)
    (kps : List (List Char)) (fs : List Char) (sourceUrl : Option (List Char))
    (transcript : Option (List Char)) (db : Db)
    (h1 : videoId ≠ []) (h2 : title ≠ []) (h3 : fs ≠ []) :
    (∀ ex, db.summaries.find?
        (fun s => s.videoUrl == saveUrlOf sourceUrl videoId && s.userId == uid)
          = some ex →
      saveV2 uid videoId title kps fs sourceUrl transcript db
        = (.already ex.id ex.createdAt, db))
    ∧ (db.summaries.find?
        (fun s => s.videoUrl == saveUrlOf sourceUrl videoId && s.userId == uid)
          = none →
      saveV2 uid videoId title kps fs sourceUrl transcript db
        = (.created db.nextId db.now,
          { db with
              summaries := db.summaries ++
                [⟨db.nextId, uid, saveUrlOf sourceUrl videoId,
                  encodeSummary title kps fs, transcript.getD [], title, videoId,
                  db.now⟩]
              nextId := db.nextId + 1 })) := by
  have hv : videoId.isEmpty = false := by
    cases videoId with
    | nil => exact absurd rfl h1
    | cons a l => rfl
  have ht : title.isEmpty = false := by
    cases title with
    | nil => exact absurd rfl h2
    | cons a l => rfl
  have hf : fs.isEmpty = false := by
    cases fs with
    | nil => exact absurd rfl h3
    | cons a l => rfl
  constructor
  · intro ex hfind
    simp [saveV2, hv, ht, hf, hfind]
  · intro hfind
    simp [saveV2, hv, ht, hf, hfind]

/-- Variant-1 save: a new row is always created, even when a record with
the same `(videoUrl, userId)` already exists. -/
theorem saveV1_spec (uid : Nat) (videoId title : List Char)
    (kps : List (List Char)) (fs : List Char) (sourceUrl : Option (List Char))
    (db : Db) (h1 : videoId ≠ []) (h2 : title ≠ []) (h3 : fs ≠ []) :
    saveV1 uid videoId title kps fs sourceUrl db
      = (.created db.nextId db.now,
        { db with
            summaries := db.summaries ++
              [⟨db.nextId, uid, saveUrlOf sourceUrl videoId,
                encodeSummary title kps fs, [], [], [], db.now⟩]
            nextId := db.nextId + 1 }) := by
  have hv : videoId.isEmpty = false := by
    cases videoId with
    | nil => exact absurd rfl h1
    | cons a l => rfl
  have ht : title.isEmpty = false := by
    cases title with
    | nil => exact absurd rfl h2
    | cons a l => rfl
  have hf : fs.isEmpty = false := by
    cases fs with
    | nil => exact absurd rfl h3
    | cons a l => rfl
  simp [saveV1, hv, ht, hf]

/-- `DELETE /summary/:id` on a record owned by someone else: the lookup is
filtered by the caller's id, so it misses, and the route answers 404
without touching the store. -/
theorem delete_not_owner (A B sid : Nat) (db : Db)
    (hown : ∀ s ∈ db.summaries, s.id = sid → s.userId = A)
    (hne : B ≠ A) :
    deleteSummaryRoute B sid db = (404, db) := by
  have hfind : db.summaries.find? (fun s => s.id == sid && s.userId == B) = none := by
    apply List.find?_eq_none.mpr
    intro s hs hcontra
    simp only [Bool.and_eq_true, beq_iff_eq] at hcontra
    exact hne (hcontra.2 ▸ (hown s hs hcontra.1) ▸ rfl)
  simp [deleteSummaryRoute, hfind]

/-- Signup: a taken email is rejected with the store untouched; a fresh
email creates the account with the fixed 10 starting credits. -/
theorem signup_spec (email password name : List Char) (db : Db)
    (h1 : email ≠ []) (h2 : password ≠ []) (h3 : name ≠ []) :
    (∀ u0, db.users.find? (fun u => u.email == email) = some u0 →
      signup email password name db = (.alreadyRegistered, db))
    ∧ (db.users.find? (fun u => u.email == email) = none →
      signup email password name db
        = (.ok db.nextId 10,
          { db with users := db.users ++ [⟨db.nextId, email, 10⟩]
                    nextId := db.nextId + 1 })) := by
  have he : email.isEmpty = false := by
    cases email with
    | nil => exact absurd rfl h1
    | cons a l => rfl
  have hp : password.isEmpty = false := by
    cases password with
    | nil => exact absurd rfl h2
    | cons a l => rfl
  have hn : name.isEmpty = false := by
    cases name with
    | nil => exact absurd rfl h3
    | cons a l => rfl
  constructor
  · intro u0 hfind
    simp [signup, he, hp, hn, hfind]
  · intro hfind
    simp [signup, he, hp, hn, hfind]

/-! ### Claims -/

/-- C1 (amended): `decode(encode(title, points, prose)) = (title, points,
prose)` holds for every trimmed title containing no line terminator
(`\n`, `\r`, LS, PS) and no case-insensitive occurrence of the key-point
marker, every non-empty list of key points that are nonempty, trimmed
(under the JS whitespace set), and free of `-` and newlines, and every
trimmed prose body.  (The unrestricted claim fails: see the
counterexample, where a hyphen inside a key point is split by the
decoder.) -/
theorem spec_c1_roundtrip (t body : List Char) (ps : List (List Char))
    (htLT : ∀ c ∈ t, lineTerm c = false) (htTrim : trim t = t)
    (htM : occursBy lowEq kpMarker t = false)
    (hps : ps ≠ [])
    (hp : ∀ p ∈ ps, p ≠ [] ∧ trim p = p ∧ '-' ∉ p ∧ NL ∉ p)
    (hb : trim body = body) :
    decodeSummary (encodeSummary t ps body) = ⟨t, ps, body⟩ :=
  decode_encode t body ps htLT htTrim htM hps hp hb

/-- C1 witness: the spec's own example — the encoder produces exactly the
documented blob and decoding it returns the original triple. -/
theorem spec_c1_roundtrip_witness :
    encodeSummary (("My Video").data) [("point one").data, ("point two").data]
        (("Full text.").data)
      = ("My Video\n\nKey Points:\n- point one\n- point two\n\nFull text.").data
    ∧ decodeSummary (encodeSummary (("My Video").data)
        [("point one").data, ("point two").data] (("Full text.").data))
      = ⟨("My Video").data, [("point one").data, ("point two").data],
          ("Full text.").data⟩ :=
  ⟨by decide,
    spec_c1_roundtrip (("My Video").data) (("Full text.").data)
      [("point one").data, ("point two").data] (by decide) (by decide) (by decide)
      (by decide) (by decide) (by decide)⟩

/-- C1 counterexample: for the key point `"point-one"` the round trip
fails — the decoder splits the stored block on every `-`, returning
`["point", "one"]`. -/
theorem spec_c1_cex :
    decodeSummary (encodeSummary (("My Video").data) [("point-one").data]
        (("Full text.").data))
      ≠ ⟨("My Video").data, [("point-one").data], ("Full text.").data⟩ := by decide

/-- C2 (amended): decoding any input without the case-insensitive
`"Key Points:"` marker yields no key points and the whole input as prose;
the title is empty whenever the input contains no newline (when it does,
the title is the trimmed first line, not the empty string). -/
theorem spec_c2_degradation (s : List Char)
    (h : occursBy lowEq kpMarker s = false) :
    (decodeSummary s).keyPoints = [] ∧ (decodeSummary s).fullSummary = s ∧
      (NL ∉ s → (decodeSummary s).title = []) :=
  decode_no_marker s h

/-- C2 witness at the marker-free, newline-free input `"hello"`. -/
theorem spec_c2_degradation_witness :
    (decodeSummary (("hello").data)).keyPoints = []
    ∧ (decodeSummary (("hello").data)).fullSummary = ("hello").data
    ∧ (NL ∉ ("hello").data → (decodeSummary (("hello").data)).title = []) :=
  spec_c2_degradation (("hello").data) (by decide)

/-- C2 counterexample: `"a\nb"` lacks the marker, yet the decoded title is
`"a"` (the first line), not the empty string the claim requires. -/
theorem spec_c2_cex :
    occursBy lowEq kpMarker (("a\nb").data) = false
    ∧ (decodeSummary (("a\nb").data)).title ≠ [] := by decide

/-- C6 (amended): on any transcript of the below-minimum lengths the
Generation Adapter is total (never throws) and returns a non-empty
`fullSummary`; its `keyPoints`, however, can be empty (see the
counterexample), since no sentinel key point is substituted on this path. -/
theorem spec_c6_fallback (transcript : List Char) (mdTitle : Option (List Char))
    (hlen : transcript.length ≤ 99) :
    (generateSummaryModel transcript mdTitle).fullSummary ≠ [] :=
  genModel_fullSummary_ne_nil transcript mdTitle

/-- C6 witness at the empty transcript. -/
theorem spec_c6_fallback_witness :
    (generateSummaryModel [] none).fullSummary ≠ [] :=
  spec_c6_fallback [] none (by decide)

/-- C6 counterexample: the empty transcript is 0 characters long (below
the provider minimum), yet `keyPoints` is the empty list, contradicting
the claimed non-empty key points. -/
theorem spec_c6_cex :
    List.length ([] : List Char) ≤ 99
    ∧ (generateSummaryModel [] none).keyPoints = [] := by decide

/-- C3 (amended, variant 1 — the persisting variant): two consecutive
successful generate calls for the same video charge exactly one credit in
total; the second call short-circuits at the existing-record lookup and
returns the record stored by the first call, with no further write.  (In
variant 2 the generated summary is never persisted by `generate`, so the
second call charges again: see the counterexample.) -/
theorem spec_c3_idempotent_variant1 (uid : Nat) (content : List Char)
    (md : Metadata) (db : Db) (u : UserRec)
    (hc : content ≠ []) (hv : optNonempty md.videoId = true)
    (hfind : db.summaries.find? (fun s => s.videoUrl == videoUrlOf md) = none)
    (huser : db.users.find? (fun v => v.id == uid) = some u) :
    creditsOf uid (generateV1 true uid content md db).2 = some (u.credits - 1)
    ∧ (generateV1 true uid content md (generateV1 true uid content md db).2).2
        = (generateV1 true uid content md db).2
    ∧ (generateV1 true uid content md (generateV1 true uid content md db).2).1
        = .hit (decodeForGenerate md.title
            (encodeSummary (generateSummaryModel content md.title).title
              (generateSummaryModel content md.title).keyPoints
              (generateSummaryModel content md.title).fullSummary))
            (videoUrlOf md) db.nextId db.now
    ∧ (generateV1 true uid content md (generateV1 true uid content md db).2).2.summaries.length
        = db.summaries.length + 1 := by
  have h1 := generateV1_fresh uid content md db u hc hv hfind huser
  have hdb1s : (generateV1 true uid content md db).2.summaries
      = db.summaries ++
        [⟨db.nextId, uid, videoUrlOf md,
          encodeSummary (generateSummaryModel content md.title).title
            (generateSummaryModel content md.title).keyPoints
            (generateSummaryModel content md.title).fullSummary,
          content, [], [], db.now⟩] := by rw [h1]
  have hdb1u : (generateV1 true uid content md db).2.users
      = db.users.map
          (fun v => if v.id = uid then { v with credits := v.credits - 1 } else v) := by
    rw [h1]
  have hcred : creditsOf uid (generateV1 true uid content md db).2
      = some (u.credits - 1) := by
    rw [creditsOf, hdb1u, find?_user_dec uid db.users, huser]
    rfl
  have hfind2 : (generateV1 true uid content md db).2.summaries.find?
      (fun s => s.videoUrl == videoUrlOf md)
      = some ⟨db.nextId, uid, videoUrlOf md,
          encodeSummary (generateSummaryModel content md.title).title
            (generateSummaryModel content md.title).keyPoints
            (generateSummaryModel content md.title).fullSummary,
          content, [], [], db.now⟩ := by
    rw [hdb1s, find?_append_none _ db.summaries _ hfind]
    simp [List.find?]
  have h2 := generateV1_hit true uid content md (generateV1 true uid content md db).2
    _ hc hv hfind2
  refine ⟨hcred, ?_, ?_, ?_⟩
  · rw [h2]
  · rw [h2]
  · rw [h2, hdb1s]
    simp

/-- C3 witness: user 1 with ten credits and no records; after two calls
nine credits remain, the second call changes nothing and answers with the
stored record. -/
theorem spec_c3_idempotent_variant1_witness :
    creditsOf 1 (generateV1 true 1 exContent exMd exDb).2 = some 9
    ∧ (generateV1 true 1 exContent exMd (generateV1 true 1 exContent exMd exDb).2).2
        = (generateV1 true 1 exContent exMd exDb).2
    ∧ (generateV1 true 1 exContent exMd (generateV1 true 1 exContent exMd exDb).2).1
        = .hit (decodeForGenerate exMd.title
            (encodeSummary (generateSummaryModel exContent exMd.title).title
              (generateSummaryModel exContent exMd.title).keyPoints
              (generateSummaryModel exContent exMd.title).fullSummary))
            (videoUrlOf exMd) exDb.nextId exDb.now
    ∧ (generateV1 true 1 exContent exMd (generateV1 true 1 exContent exMd exDb).2).2.summaries.length
        = exDb.summaries.length + 1 :=
  spec_c3_idempotent_variant1 1 exContent exMd exDb ⟨1, ("a@b.c").data, 10⟩
    (by decide) (by decide) (by decide) (by decide)

/-- C3 counterexample (variant 2): starting from ten credits, two
consecutive identical generate calls leave eight credits — two credits
charged, because the first call persisted nothing for the lookup to find. -/
theorem spec_c3_cex :
    creditsOf 1 exDb = some 10
    ∧ creditsOf 1
        (generateV2 1 exContent exMd (generateV2 1 exContent exMd exDb).2).2
      = some 8 := by decide

/-- C4 (amended, variant 2): with balance ≤ 0 and no existing record,
generate fails with 403 Forbidden and performs no write.  (Variant 1 has
no balance check at all: see the counterexample.) -/
theorem spec_c4_forbidden_variant2 (uid : Nat) (content : List Char)
    (md : Metadata) (db : Db) (u : UserRec)
    (hc : content ≠ []) (hv : optNonempty md.videoId = true)
    (hfind : db.summaries.find?
        (fun s => s.videoUrl == videoUrlOf md && s.userId == uid) = none)
    (huser : db.users.find? (fun v => v.id == uid) = some u)
    (hcred : u.credits ≤ 0) :
    generateV2 uid content md db = (.forbidden, db) :=
  generateV2_forbidden uid content md db u hc hv hfind huser hcred

/-- C4 witness: user 1 with zero credits, no records. -/
theorem spec_c4_forbidden_variant2_witness :
    generateV2 1 exContent exMd exDbZero = (.forbidden, exDbZero) :=
  spec_c4_forbidden_variant2 1 exContent exMd exDbZero ⟨1, ("a@b.c").data, 0⟩
    (by decide) (by decide) (by decide) (by decide) (by decide)

/-- C4 counterexample (variant 1): with a zero balance the request
succeeds, a record is created, and the balance is driven to −1. -/
theorem spec_c4_cex :
    isSuccessV1 (generateV1 true 1 exContent exMd exDbZero).1 = true
    ∧ (generateV1 true 1 exContent exMd exDbZero).2.summaries.length = 1
    ∧ creditsOf 1 (generateV1 true 1 exContent exMd exDbZero).2 = some (-1) := by decide

/-- C5 (amended, variant 1): the record creation and the credit decrement
are a single atomic unit — when the transaction commits both happen, when
it fails neither does.  However, a failed transaction is caught and the
route still answers success with no record id, instead of surfacing an
Internal error (see the counterexample). -/
theorem spec_c5_atomicity_variant1 (uid : Nat) (content : List Char)
    (md : Metadata) (db : Db) (u : UserRec) (txOk : Bool)
    (hc : content ≠ []) (hv : optNonempty md.videoId = true)
    (hfind : db.summaries.find? (fun s => s.videoUrl == videoUrlOf md) = none)
    (huser : db.users.find? (fun v => v.id == uid) = some u) :
    (txOk = true →
      (generateV1 txOk uid content md db).2.summaries
          = db.summaries ++
            [⟨db.nextId, uid, videoUrlOf md,
              encodeSummary (generateSummaryModel content md.title).title
                (generateSummaryModel content md.title).keyPoints
                (generateSummaryModel content md.title).fullSummary,
              content, [], [], db.now⟩]
        ∧ creditsOf uid (generateV1 txOk uid content md db).2 = some (u.credits - 1))
    ∧ (txOk = false →
      (generateV1 txOk uid content md db).2 = db
        ∧ isSuccessV1 (generateV1 txOk uid content md db).1 = true) := by
  constructor
  · intro htx
    subst htx
    have h1 := generateV1_fresh uid content md db u hc hv hfind huser
    constructor
    · rw [h1]
    · have hdb1u : (generateV1 true uid content md db).2.users
          = db.users.map
              (fun v => if v.id = uid then { v with credits := v.credits - 1 } else v) := by
        rw [h1]
      rw [creditsOf, hdb1u, find?_user_dec uid db.users, huser]
      rfl
  · intro htx
    subst htx
    have h1 := generateV1_txFail uid content md db u hc hv hfind huser
    constructor
    · rw [h1]
    · rw [h1]
      rfl

/-- C5 witness at `txOk = true` and `txOk = false` on the concrete store. -/
theorem spec_c5_atomicity_variant1_witness :
    ((true = true →
      (generateV1 true 1 exContent exMd exDb).2.summaries
          = exDb.summaries ++
            [⟨exDb.nextId, 1, videoUrlOf exMd,
              encodeSummary (generateSummaryModel exContent exMd.title).title
                (generateSummaryModel exContent exMd.title).keyPoints
                (generateSummaryModel exContent exMd.title).fullSummary,
              exContent, [], [], exDb.now⟩]
        ∧ creditsOf 1 (generateV1 true 1 exContent exMd exDb).2 = some 9)
    ∧ (true = false →
      (generateV1 true 1 exContent exMd exDb).2 = exDb
        ∧ isSuccessV1 (generateV1 true 1 exContent exMd exDb).1 = true))
    ∧ ((false = true →
      (generateV1 false 1 exContent exMd exDb).2.summaries
          = exDb.summaries ++
            [⟨exDb.nextId, 1, videoUrlOf exMd,
              encodeSummary (generateSummaryModel exContent exMd.title).title
                (generateSummaryModel exContent exMd.title).keyPoints
                (generateSummaryModel exContent exMd.title).fullSummary,
              exContent, [], [], exDb.now⟩]
        ∧ creditsOf 1 (generateV1 false 1 exContent exMd exDb).2 = some 9)
    ∧ (false = false →
      (generateV1 false 1 exContent exMd exDb).2 = exDb
        ∧ isSuccessV1 (generateV1 false 1 exContent exMd exDb).1 = true)) :=
  ⟨spec_c5_atomicity_variant1 1 exContent exMd exDb ⟨1, ("a@b.c").data, 10⟩ true
      (by decide) (by decide) (by decide) (by decide),
    spec_c5_atomicity_variant1 1 exContent exMd exDb ⟨1, ("a@b.c").data, 10⟩ false
      (by decide) (by decide) (by decide) (by decide)⟩

/-- C5 counterexample: when the transactional persistence fails, the
store is untouched (no partial write) but the route answers success —
no `Internal` error is surfaced to the client. -/
theorem spec_c5_cex :
    (generateV1 false 1 exContent exMd exDb).2 = exDb
    ∧ isSuccessV1 (generateV1 false 1 exContent exMd exDb).1 = true := by decide

/-- C7 (amended, variant 2): explicit save is idempotent keyed on
`(account, videoUrl)` — an existing record is returned (its id and
createdAt, `alreadySaved: true`) with no new row; only when no record
exists is one created.  (Variant 1 creates a row unconditionally: see the
counterexample.) -/
theorem spec_c7_save_idempotent_variant2 (uid : Nat) (videoId title : List Char)
    (kps : List (List Char)) (fs : List Char) (sourceUrl : Option (List Char))
    (transcript : Option (List Char)) (db : Db)
    (h1 : videoId ≠ []) (h2 : title ≠ []) (h3 : fs ≠ []) :
    (∀ ex, db.summaries.find?
        (fun s => s.videoUrl == saveUrlOf sourceUrl videoId && s.userId == uid)
          = some ex →
      saveV2 uid videoId title kps fs sourceUrl transcript db
        = (.already ex.id ex.createdAt, db))
    ∧ (db.summaries.find?
        (fun s => s.videoUrl == saveUrlOf sourceUrl videoId && s.userId == uid)
          = none →
      saveV2 uid videoId title kps fs sourceUrl transcript db
        = (.created db.nextId db.now,
          { db with
              summaries := db.summaries ++
                [⟨db.nextId, uid, saveUrlOf sourceUrl videoId,
                  encodeSummary title kps fs, transcript.getD [], title, videoId,
                  db.now⟩]
              nextId := db.nextId + 1 })) :=
  saveV2_spec uid videoId title kps fs sourceUrl transcript db h1 h2 h3

/-- C7 witness: user 1 already holds `exStored` for this video; save
returns its id and creation time and leaves the store unchanged. -/
theorem spec_c7_save_idempotent_variant2_witness :
    saveV2 1 (("vid").data) (("T").data) [] (("B").data) none none exDbOwn
      = (.already 7 50, exDbOwn) :=
  (spec_c7_save_idempotent_variant2 1 (("vid").data) (("T").data) []
      (("B").data) none none exDbOwn (by decide) (by decide) (by decide)).1
    exStored (by decide)

/-- C7 counterexample (variant 1): a record for `(user 1, videoUrl)`
already exists (`exStored`), yet save creates a second row for the same
key instead of returning the existing record. -/
theorem spec_c7_cex :
    (saveV1 1 (("vid").data) (("T").data) [] (("B").data) none exDbOwn).2.summaries.length
        = 2
    ∧ (saveV1 1 (("vid").data) (("T").data) [] (("B").data) none exDbOwn).1
        = .created 9 200 := by decide

/-- C8 (confirmed): deleting a record owned by another account answers
404 NotFound and leaves the store — in particular the record itself —
untouched. -/
theorem spec_c8_delete_ownership (A B sid : Nat) (db : Db) (r : SummaryRec)
    (hr : r ∈ db.summaries) (hrid : r.id = sid)
    (hown : ∀ s ∈ db.summaries, s.id = sid → s.userId = A)
    (hne : B ≠ A) :
    deleteSummaryRoute B sid db = (404, db)
    ∧ r ∈ (deleteSummaryRoute B sid db).2.summaries := by
  have h := delete_not_owner A B sid db hown hne
  exact ⟨h, by rw [h]; exact hr⟩

/-- C8 witness: user 2 attempts to delete user 1's record `exStored`. -/
theorem spec_c8_delete_ownership_witness :
    deleteSummaryRoute 2 7 exDbOwn = (404, exDbOwn)
    ∧ exStored ∈ (deleteSummaryRoute 2 7 exDbOwn).2.summaries :=
  spec_c8_delete_ownership 1 2 7 exDbOwn exStored (by decide) (by decide)
    (by decide) (by decide)

/-- C9 (amended): a signup with an already-registered email is rejected
with HTTP 400 — not 409 Conflict as claimed (see the counterexample) —
and creates no account; every successful registration grants exactly 10
starting credits. -/
theorem spec_c9_signup (email password name : List Char) (db : Db)
    (h1 : email ≠ []) (h2 : password ≠ []) (h3 : name ≠ []) :
    (∀ u0, db.users.find? (fun u => u.email == email) = some u0 →
      signup email password name db = (.alreadyRegistered, db)
      ∧ signupStatus (signup email password name db).1 = 400)
    ∧ (db.users.find? (fun u => u.email == email) = none →
      signup email password name db
        = (.ok db.nextId 10,
          { db with users := db.users ++ [⟨db.nextId, email, 10⟩]
                    nextId := db.nextId + 1 })) := by
  have h := signup_spec email password name db h1 h2 h3
  refine ⟨fun u0 hf => ⟨h.1 u0 hf, ?_⟩, h.2⟩
  rw [h.1 u0 hf]
  rfl

/-- C9 witness: the taken email `"a@b.c"` is rejected with 400 and an
unchanged store; the fresh email `"new@x.y"` creates an account holding
10 credits. -/
theorem spec_c9_signup_witness :
    (signup (("a@b.c").data) (("pw").data) (("N").data) exDb
        = (.alreadyRegistered, exDb)
      ∧ signupStatus (signup (("a@b.c").data) (("pw").data) (("N").data) exDb).1
        = 400)
    ∧ signup (("new@x.y").data) (("pw").data) (("N").data) exDb
        = (.ok 5 10,
          { exDb with users := exDb.users ++ [⟨5, ("new@x.y").data, 10⟩]
                      nextId := 6 }) :=
  ⟨(spec_c9_signup (("a@b.c").data) (("pw").data) (("N").data) exDb
      (by decide) (by decide) (by decide)).1 ⟨1, ("a@b.c").data, 10⟩ (by decide),
    (spec_c9_signup (("new@x.y").data) (("pw").data) (("N").data) exDb
      (by decide) (by decide) (by decide)).2 (by decide)⟩

/-- C9 counterexample: registering a taken email answers status 400, not
the 409 Conflict the claim requires (though no account is created). -/
theorem spec_c9_cex :
    signupStatus (signup (("a@b.c").data) (("pw").data) (("N").data) exDb).1 = 400
    ∧ signupStatus (signup (("a@b.c").data) (("pw").data) (("N").data) exDb).1 ≠ 409
    ∧ (signup (("a@b.c").data) (("pw").data) (("N").data) exDb).2 = exDb := by decide

/-- C10 (confirmed): in variant 1 the existing-record lookup filters on
`videoUrl` alone, so a generate request by account `B` for a video whose
record is owned by a distinct account `A` short-circuits and returns `A`'s
decoded record (including its id) to `B`, charging `B` nothing and
creating no record for `B`. -/
theorem spec_c10_cross_account_hit (A B : Nat) (content : List Char)
    (md : Metadata) (db : Db) (r : SummaryRec) (txOk : Bool)
    (hc : content ≠ []) (hv : optNonempty md.videoId = true)
    (hfind : db.summaries.find? (fun s => s.videoUrl == videoUrlOf md) = some r)
    (hA : r.userId = A) (hAB : A ≠ B) :
    generateV1 txOk B content md db
      = (.hit (decodeForGenerate md.title r.summary) r.videoUrl r.id r.createdAt,
          db) :=
  generateV1_hit txOk B content md db r hc hv hfind

/-- C10 witness: user 2 requests the video stored by user 1 and receives
user 1's record with no state change. -/
theorem spec_c10_cross_account_hit_witness :
    generateV1 true 2 exContent exMd exDbOwn
      = (.hit (decodeForGenerate exMd.title exStored.summary) exStored.videoUrl
          exStored.id exStored.createdAt, exDbOwn) :=
  spec_c10_cross_account_hit 1 2 exContent exMd exDbOwn exStored true
    (by decide) (by decide) (by decide) (by decide) (by decide)

end Knugget
